import Mathlib

/-!
Verification of the qmplot command-line program (`src/qmplot/main.py`)
against its natural-language specification.

The embedding models:
* the data-cleaning pipeline of `main()` (null-row removal, the `chr`
  prefix check and the per-row label stripping),
* the command-line defaults of `parse_commandline_args()`,
* the names of the two saved image files,
and, modelled from the specification because the plotting package
internals (`manhattanplot`, `qqplot`) are not part of the source tree:
* the Q-Q quantile pairing,
* the windowed top-signal selection,
* the cumulative chromosome x-axis layout.
-/

namespace Qmplot

/-- One row of the loaded table.  A pandas cell is nullable, so every
field is an `Option`; `extras` holds the cells of all columns other than
the three required ones (chromosome, position, p-value).  `none` models
a NaN cell. -/
structure Row where
  chrom : Option String
  pos : Option Int
  pv : Option ℚ
  extras : List (Option String)
deriving DecidableEq, Repr

/-- `data.dropna(how="any", axis=0)` drops a row when ANY of its cells,
required or not, is null. -/
def Row.hasNull (r : Row) : Bool :=
  r.chrom.isNone || r.pos.isNone || r.pv.isNone || r.extras.any Option.isNone

/-- A table keeps the pandas row labels (the original integer index),
since `dropna` preserves labels rather than renumbering rows. -/
def Table := List (Nat × Row)

/-- `data = data.dropna(how="any", axis=0)` of `main()`. -/
def dropnaAny (tbl : List (Nat × Row)) : List (Nat × Row) :=
  tbl.filter (fun p => !p.2.hasNull)

/-- Label-based lookup `data[col][0]` on the integer index: the first
(here: only) row carrying the given label, or a KeyError when absent. -/
def lookupLabel (l : Nat) (tbl : List (Nat × Row)) : Option Row :=
  (tbl.find? (fun p => p.1 == l)).map Prod.snd

/-- Python's `x.startswith("chr")`, over the character list of the
string: the first three characters are `c`, `h`, `r`. -/
def startsChr (s : String) : Bool :=
  s.data.take 3 == ['c', 'h', 'r']

/-- The lambda of `main()`: `x[3:] if x.startswith("chr") else x`,
where `x[3:]` drops the first three characters. -/
def stripChr (s : String) : String :=
  if startsChr s then String.mk (s.data.drop 3) else s

/-- Applying the chromosome-column map of `main()` to one row.
`astype(str)` is the identity here because the chromosome cell is
already modelled as a string. -/
def stripRow (r : Row) : Row :=
  { r with chrom := r.chrom.map stripChr }

/-- The data-cleaning pipeline of `main()`: drop null rows, test whether
the value at row label 0 starts with `"chr"` (printing the warning when
it does; a missing label 0 raises a KeyError), then map the stripping
lambda over every row.  The returned `Bool` records whether the warning
was printed. -/
def mainPipeline (tbl : List (Nat × Row)) : Except String (Bool × List (Nat × Row)) :=
  let d := dropnaAny tbl
  match lookupLabel 0 d with
  | none => Except.error "KeyError: 0"
  | some r =>
      Except.ok (startsChr (r.chrom.getD ""),
                 d.map (fun p => (p.1, stripRow p.2)))

/-- The parsed command-line configuration of `parse_commandline_args()`.
The p-value threshold and the dpi are rationals standing for the exact
decimal float literals of the source. -/
structure Args where
  input : String
  outprefix : String
  outfiletype : String
  chrom : String
  pos : String
  pv : String
  title : Option String
  sign_pvalue : ℚ
  m_id : Option String
  ld_block_size : Int
  dpi : ℚ
  display : Bool
deriving DecidableEq, Repr

/-- The configuration obtained when every optional flag is omitted; the
two required flags supply the input path and the output file name stem. -/
def defaultArgs (input outprefix : String) : Args :=
  { input := input
    outprefix := outprefix
    outfiletype := "png"
    chrom := "#CHROM"
    pos := "POS"
    pv := "P"
    title := none
    sign_pvalue := 5 / 100000000
    m_id := none
    ld_block_size := 500000
    dpi := 300
    display := false }

/-- The two `plt.savefig` targets of `main()`, in the order they are
written. -/
def savedFiles (a : Args) : List String :=
  [a.outprefix ++ ".manhattan." ++ a.outfiletype,
   a.outprefix ++ ".QQ." ++ a.outfiletype]

/-- The retained-row set as the spec sentence for claim C2 words it:
only a null in one of the three REQUIRED columns drops a row. -/
def specRetain (tbl : List (Nat × Row)) : List (Nat × Row) :=
  tbl.filter (fun p => !(p.2.chrom.isNone || p.2.pos.isNone || p.2.pv.isNone))

/-- A row that is entirely null: its table is empty after null-row
removal. -/
def rowAllNull : Row :=
  { chrom := none, pos := none, pv := none, extras := [] }

/-- A row whose three required cells are non-null but whose single extra
cell is null. -/
def rowExtraNull : Row :=
  { chrom := some "1", pos := some 100, pv := some (1/2), extras := [none] }

/-- A row whose chromosome label carries the `chr` prefix. -/
def rowChr1 : Row :=
  { chrom := some "chr1", pos := some 1, pv := some (1/2), extras := [] }

/-- A first row without the prefix followed by a second row with it.
The p-value cells are the rational 1 so that decidable row equality
evaluates inside the kernel. -/
def rowPlain1 : Row :=
  { chrom := some "1", pos := some 5, pv := some 1, extras := [] }

def rowChr2 : Row :=
  { chrom := some "chr2", pos := some 9, pv := some 1, extras := [] }

/-- Modelled from the spec: the Q-Q quantile pairing of `qqplot`, whose
implementation is not under the source tree.  Per the contract, the
p-values are sorted ascending and the record of 1-based rank `k` among
`n` values is paired with the expected quantile argument `k / (n + 1)`.
This computable core returns the pre-logarithm pairs
`(k / (n + 1), p_(k))` in rank order. -/
def qqRanked (ps : List ℚ) : List (ℚ × ℚ) :=
  ((List.insertionSort (· ≤ ·) ps).enum).map
    (fun ip => (((ip.1 : ℚ) + 1) / ((ps.length : ℚ) + 1), ip.2))

/-- Modelled from the spec: the `-log10` transform applied to both
coordinates. -/
noncomputable def negLog10 (q : ℚ) : ℝ :=
  -Real.logb 10 (q : ℝ)

/-- Modelled from the spec: the paired `(expected, observed)` points of
the Q-Q plot, `expected = -log10(k/(n+1))` and `observed = -log10(p)`
in rank order. -/
noncomputable def qqPoints (ps : List ℚ) : List (ℝ × ℝ) :=
  (qqRanked ps).map (fun q => (negLog10 q.1, negLog10 q.2))

/-- Modelled from the spec: a `MarkerRecord` of the data model — the
input of the top-signal window selection and the chromosome layout of
`manhattanplot`, whose implementation is not under the source tree. -/
structure Marker where
  chrom : String
  pos : Nat
  pval : ℚ
  annot : Option String
deriving DecidableEq, Repr

/-- The genomic window a record falls into: consecutive fixed-size
windows of width `w` partition each chromosome's position range, so the
window key of a record is its chromosome paired with `pos / w`. -/
def rkey (w : Nat) (m : Marker) : String × Nat :=
  (m.chrom, m.pos / w)

/-- One step of the minimum-p-value choice: the candidate `y` found
later in the list replaces the current record `x` only when its p-value
is strictly smaller, so the FIRST record is kept on ties. -/
def pickMin2 (x : Marker) : Option Marker → Marker
  | none => x
  | some y => if y.pval < x.pval then y else x

/-- The record with minimum p-value of a list, keeping the first record
encountered on ties. -/
def pickMin : List Marker → Option Marker
  | [] => none
  | x :: xs => some (pickMin2 x (pickMin xs))

/-- The (chromosome, window) keys present in the input, in order of
first appearance. -/
def topSignalKeys (w : Nat) (rs : List Marker) : List (String × Nat) :=
  (rs.map (rkey w)).dedup

/-- Modelled from the spec: the windowed top-signal selection — within
each (chromosome, window) group retain only the record with the minimum
p-value, first-encountered on ties. -/
def topSignals (w : Nat) (rs : List Marker) : List Marker :=
  (topSignalKeys w rs).filterMap
    (fun k => pickMin (rs.filter (fun m => decide (rkey w m = k))))

/-- Modelled from the spec: among the retained per-window minima, only
those carrying a non-null annotation identifier reach the annotation
renderer. -/
def annotatedTopSignals (w : Nat) (rs : List Marker) : List Marker :=
  (topSignals w rs).filter (fun m => m.annot.isSome)

/-- The records of one chromosome, in input order. -/
def chromRecords (rs : List Marker) (c : String) : List Marker :=
  rs.filter (fun m => decide (m.chrom = c))

/-- Modelled from the spec: a chromosome group's width is the maximum
position among its records, and a chromosome with zero records has
width zero. -/
def chromWidth (rs : List Marker) (c : String) : Nat :=
  ((chromRecords rs c).map Marker.pos).foldr max 0

/-- Modelled from the spec: the x-axis offset of the chromosome at
index `i` of the display order is the cumulative width of all preceding
chromosome groups. -/
def chromOffset (order : List String) (rs : List Marker) (i : Nat) : Nat :=
  ((order.take i).map (chromWidth rs)).sum

/-- Modelled from the spec: a record's global x-coordinate is its
position plus the cumulative width of all chromosomes preceding its own
in the display order. -/
def xcoord (order : List String) (rs : List Marker) (m : Marker) : Nat :=
  m.pos + chromOffset order rs (order.indexOf m.chrom)

/-- C9: with every optional flag omitted, the parsed configuration uses
output image format "png", column names "#CHROM"/"POS"/"P", significance
threshold 5e-8, genomic window (LD block) size 500000 and dpi 300. -/
theorem cli_defaults (i o : String) :
    (defaultArgs i o).outfiletype = "png" ∧
    (defaultArgs i o).chrom = "#CHROM" ∧
    (defaultArgs i o).pos = "POS" ∧
    (defaultArgs i o).pv = "P" ∧
    (defaultArgs i o).sign_pvalue = 5 / 100000000 ∧
    (defaultArgs i o).ld_block_size = 500000 ∧
    (defaultArgs i o).dpi = 300 :=
  ⟨rfl, rfl, rfl, rfl, rfl, rfl, rfl⟩

/-- C8: for every output stem and file-type string the program writes
exactly two image files, the stem followed by ".manhattan." plus the
type and by ".QQ." plus the type. -/
theorem output_filenames (a : Args) :
    savedFiles a = [a.outprefix ++ ".manhattan." ++ a.outfiletype,
                    a.outprefix ++ ".QQ." ++ a.outfiletype] ∧
    (savedFiles a).length = 2 :=
  ⟨rfl, rfl⟩

/-- C2 counterexample: a row whose three required cells are non-null
but whose extra cell is null is dropped by the code, while the claim
(formalised by `specRetain`) says it is retained. -/
theorem dropna_counterexample :
    dropnaAny [(0, rowExtraNull)] = [] ∧
    specRetain [(0, rowExtraNull)] = [(0, rowExtraNull)] :=
  ⟨rfl, rfl⟩

/-- C2 amended: `dropna(how="any")` retains exactly the rows all of
whose cells — required columns AND every other column — are non-null. -/
theorem dropna_any_column (tbl : List (Nat × Row)) (l : Nat) (r : Row) :
    (l, r) ∈ dropnaAny tbl ↔
      (l, r) ∈ tbl ∧ r.chrom.isSome ∧ r.pos.isSome ∧ r.pv.isSome ∧
        ∀ c ∈ r.extras, c.isSome := by
  simp [dropnaAny, List.mem_filter, Row.hasNull, Option.isNone_iff_eq_none,
    Option.isSome_iff_ne_none, not_or, List.any_eq_true, and_assoc]

/-- C1 counterexample: a table that is non-empty but becomes empty
after null-row removal makes the run fail with a KeyError instead of
completing. -/
theorem empty_after_dropna_counterexample :
    dropnaAny [(0, rowAllNull)] = [] ∧
    mainPipeline [(0, rowAllNull)] = Except.error "KeyError: 0" :=
  ⟨rfl, rfl⟩

/-- C1 amended: every input table that is empty after null-row removal
makes the run fail: the `chr`-prefix check looks up row label 0, which
no longer exists, and raises a KeyError. -/
theorem empty_after_dropna_errors (tbl : List (Nat × Row))
    (h : dropnaAny tbl = []) :
    mainPipeline tbl = Except.error "KeyError: 0" := by
  simp [mainPipeline, h, lookupLabel]

/-- Witness for the amended C1 at a concrete all-null one-row table. -/
theorem empty_after_dropna_errors_witness :
    mainPipeline [(1, rowAllNull)] = Except.error "KeyError: 0" :=
  empty_after_dropna_errors [(1, rowAllNull)] rfl

/-- C3 counterexample: on a table whose label-0 row is "chr1" the
stripping is applied AND the warning message is printed (flag `true`),
so the transformation is not silent. -/
theorem strip_silent_counterexample :
    mainPipeline [(0, rowChr1)] =
      Except.ok (true, [(0, { rowChr1 with chrom := some "1" })]) :=
  rfl

/-- C3 amended: every retained row's label is stripped of its first
three characters when it starts with "chr" and left unchanged
otherwise, before layout; the transformation is not always silent — a
warning is printed exactly when the row at label 0 starts with "chr". -/
theorem strip_chr_rows (tbl : List (Nat × Row)) (b : Bool)
    (out : List (Nat × Row)) (h : mainPipeline tbl = Except.ok (b, out)) :
    out = (dropnaAny tbl).map (fun p => (p.1, stripRow p.2)) ∧
    (∀ l r, (l, r) ∈ dropnaAny tbl →
      (l, { r with chrom := r.chrom.map stripChr }) ∈ out) ∧
    (∀ s, stripChr s = if startsChr s then String.mk (s.data.drop 3) else s) ∧
    (b = true ↔ ∃ r0, lookupLabel 0 (dropnaAny tbl) = some r0 ∧
      startsChr (r0.chrom.getD "")) := by
  simp only [mainPipeline] at h
  cases hl : lookupLabel 0 (dropnaAny tbl) with
  | none => rw [hl] at h; exact absurd h (by simp)
  | some r0 =>
    rw [hl] at h
    simp only [Except.ok.injEq, Prod.mk.injEq] at h
    obtain ⟨hb, hout⟩ := h
    refine ⟨hout.symm, ?_, fun s => rfl, ?_⟩
    · intro l r hlr
      rw [hout.symm]
      exact List.mem_map.mpr ⟨(l, r), hlr, rfl⟩
    · constructor
      · intro hb1
        exact ⟨r0, rfl, hb.trans hb1⟩
      · rintro ⟨r1, hr1, hr1s⟩
        injection hr1 with heq
        rw [← hb, heq]
        exact hr1s

/-- Witness for the amended C3 at a concrete one-row "chr1" table. -/
theorem strip_chr_rows_witness :
    [(0, { rowChr1 with chrom := some "1" })] =
      (dropnaAny [(0, rowChr1)]).map (fun p => (p.1, stripRow p.2)) ∧
    (∀ l r, (l, r) ∈ dropnaAny [(0, rowChr1)] →
      (l, { r with chrom := r.chrom.map stripChr }) ∈
        [(0, { rowChr1 with chrom := some "1" })]) ∧
    (∀ s, stripChr s = if startsChr s then String.mk (s.data.drop 3) else s) ∧
    (true = true ↔ ∃ r0, lookupLabel 0 (dropnaAny [(0, rowChr1)]) = some r0 ∧
      startsChr (r0.chrom.getD "")) :=
  strip_chr_rows [(0, rowChr1)] true [(0, { rowChr1 with chrom := some "1" })] rfl

/-- C10: the warning is printed iff the value at row label 0 of the
chromosome column starts with "chr", while the stripping is applied to
every row independently; in particular there is an input whose later
rows are modified with no warning printed. -/
theorem warning_iff_label0 (tbl : List (Nat × Row)) (r : Row)
    (h : lookupLabel 0 (dropnaAny tbl) = some r) :
    mainPipeline tbl =
      Except.ok (startsChr (r.chrom.getD ""),
                 (dropnaAny tbl).map (fun p => (p.1, stripRow p.2))) ∧
    ∃ out, mainPipeline [(0, rowPlain1), (1, rowChr2)] = Except.ok (false, out) ∧
      out ≠ [(0, rowPlain1), (1, rowChr2)] := by
  refine ⟨by simp [mainPipeline, h], ?_⟩
  exact ⟨[(0, rowPlain1), (1, { rowChr2 with chrom := some "2" })], rfl, by decide⟩

/-- C4: for every non-empty sequence of p-values the Q-Q pairing sorts
them ascending and returns, in rank order, the pairs
`(-log10(k/(n+1)), -log10(p_(k)))` for 1-based rank `k`; in particular
`[0.5, 0.1, 0.01]` yields the expected arguments 1/4, 2/4 and 3/4. -/
theorem qq_pairing (ps : List ℚ) (h : 0 < ps.length) :
    (List.insertionSort (· ≤ ·) ps).Sorted (· ≤ ·) ∧
    (List.insertionSort (· ≤ ·) ps).Perm ps ∧
    (∀ k, k < ps.length →
      (qqPoints ps)[k]? =
        ((List.insertionSort (· ≤ ·) ps)[k]?).map
          (fun p => (negLog10 (((k : ℚ) + 1) / ((ps.length : ℚ) + 1)), negLog10 p))) ∧
    qqRanked [1/2, 1/10, 1/100] = [(1/4, 1/100), (2/4, 1/10), (3/4, 1/2)] := by
  refine ⟨List.sorted_insertionSort _ _, List.perm_insertionSort _ _, ?_, ?_⟩
  · intro k _
    simp [qqPoints, qqRanked, List.getElem?_map, List.getElem?_enum, Option.map_map]
    rfl
  · with_unfolding_all decide

/-- Witness for C4 at the spec's example input of three p-values. -/
theorem qq_pairing_witness :
    qqRanked [1/2, 1/10, 1/100] = [(1/4, 1/100), (2/4, 1/10), (3/4, 1/2)] :=
  (qq_pairing [1/2, 1/10, 1/100] (by decide)).2.2.2

/-- C7: the empty sequence of p-values yields an empty Q-Q pairing and
no error. -/
theorem qq_empty :
    qqPoints [] = [] ∧ qqRanked [] = [] :=
  ⟨rfl, rfl⟩

theorem pickMin_eq_none {l : List Marker} : pickMin l = none ↔ l = [] := by
  cases l with
  | nil => simp [pickMin]
  | cons x xs => simp [pickMin]

theorem pickMin_mem : ∀ {l : List Marker} {m : Marker}, pickMin l = some m → m ∈ l := by
  intro l
  induction l with
  | nil => intro m h; simp [pickMin] at h
  | cons x xs ih =>
    intro m h
    simp only [pickMin, Option.some.injEq] at h
    cases hx : pickMin xs with
    | none =>
      rw [hx] at h; simp only [pickMin2] at h; subst h
      exact List.mem_cons_self x xs
    | some y =>
      rw [hx] at h; simp only [pickMin2] at h
      by_cases hy : y.pval < x.pval
      · rw [if_pos hy] at h; subst h
        exact List.mem_cons_of_mem x (ih hx)
      · rw [if_neg hy] at h; subst h
        exact List.mem_cons_self x xs

theorem pickMin_le : ∀ {l : List Marker} {m : Marker}, pickMin l = some m →
    ∀ s ∈ l, m.pval ≤ s.pval := by
  intro l
  induction l with
  | nil => intro m h; simp [pickMin] at h
  | cons x xs ih =>
    intro m h s hs
    simp only [pickMin, Option.some.injEq] at h
    cases hx : pickMin xs with
    | none =>
      rw [hx] at h; simp only [pickMin2] at h; subst h
      rw [pickMin_eq_none] at hx; subst hx
      rcases List.mem_cons.mp hs with h2 | h2
      · rw [h2]
      · cases h2
    | some y =>
      rw [hx] at h; simp only [pickMin2] at h
      have hyle := ih hx
      by_cases hy : y.pval < x.pval
      · rw [if_pos hy] at h; subst h
        rcases List.mem_cons.mp hs with h2 | h2
        · rw [h2]; exact le_of_lt hy
        · exact hyle s h2
      · rw [if_neg hy] at h; subst h
        rcases List.mem_cons.mp hs with h2 | h2
        · rw [h2]
        · exact le_trans (not_lt.mp hy) (hyle s h2)

theorem pickMin_split : ∀ {l : List Marker} {m : Marker}, pickMin l = some m →
    ∃ l1 l2, l = l1 ++ m :: l2 ∧ ∀ s ∈ l1, m.pval < s.pval := by
  intro l
  induction l with
  | nil => intro m h; simp [pickMin] at h
  | cons x xs ih =>
    intro m h
    simp only [pickMin, Option.some.injEq] at h
    cases hx : pickMin xs with
    | none =>
      rw [hx] at h; simp only [pickMin2] at h; subst h
      exact ⟨[], xs, rfl, by simp⟩
    | some y =>
      rw [hx] at h; simp only [pickMin2] at h
      by_cases hy : y.pval < x.pval
      · rw [if_pos hy] at h; subst h
        obtain ⟨l1, l2, hsplit, hlt⟩ := ih hx
        refine ⟨x :: l1, l2, by rw [hsplit]; rfl, ?_⟩
        intro s hs
        rcases List.mem_cons.mp hs with h2 | h2
        · rw [h2]; exact hy
        · exact hlt s h2
      · rw [if_neg hy] at h; subst h
        exact ⟨[], xs, rfl, by simp⟩

theorem topSignals_key {w : Nat} {k : String × Nat} {r : Marker} {rs : List Marker}
    (h : pickMin (rs.filter (fun m => decide (rkey w m = k))) = some r) :
    rkey w r = k := by
  have hm := pickMin_mem h
  rw [List.mem_filter] at hm
  exact of_decide_eq_true hm.2

/-- The spec's example input rows `(chr1,100,1e-2)`, `(chr1,100200,1e-9)`
and `(chr2,50,0.5)`, after the upstream `chr` stripping. -/
def exMarkers : List Marker :=
  [⟨"1", 100, 1/100, some "rs1"⟩,
   ⟨"1", 100200, 1/1000000000, some "rs2"⟩,
   ⟨"2", 50, 1/2, some "rs3"⟩]

/-- C5: for every window size w > 0, the top-signal selection retains
within each (chromosome, window) group exactly the record of minimum
p-value, first-encountered in input order on ties; retained records are
pairwise in distinct windows, every non-empty window has a retained
record, and each retained record is a minimum over its whole window. -/
theorem top_signal_selection (w : Nat) (rs : List Marker) (h : 0 < w) :
    (∀ r ∈ topSignals w rs, r ∈ rs ∧ ∀ s ∈ rs, rkey w s = rkey w r → r.pval ≤ s.pval) ∧
    (∀ s ∈ rs, ∃ r ∈ topSignals w rs, rkey w r = rkey w s) ∧
    (topSignals w rs).Pairwise (fun a b => rkey w a ≠ rkey w b) ∧
    (∀ r ∈ topSignals w rs,
      ∃ l1 l2, rs.filter (fun m => decide (rkey w m = rkey w r)) = l1 ++ r :: l2 ∧
        ∀ s ∈ l1, r.pval < s.pval) := by
  refine ⟨?_, ?_, ?_, ?_⟩
  · intro r hr
    rw [topSignals, List.mem_filterMap] at hr
    obtain ⟨k, hk, hpick⟩ := hr
    have hkey := topSignals_key hpick
    have hmem := pickMin_mem hpick
    rw [List.mem_filter] at hmem
    refine ⟨hmem.1, ?_⟩
    intro s hs hkeys
    have hsf : s ∈ rs.filter (fun m => decide (rkey w m = k)) := by
      rw [List.mem_filter]
      exact ⟨hs, decide_eq_true (by rw [hkeys, hkey])⟩
    exact pickMin_le hpick s hsf
  · intro s hs
    have hk : rkey w s ∈ topSignalKeys w rs := by
      rw [topSignalKeys, List.mem_dedup]
      exact List.mem_map.mpr ⟨s, hs, rfl⟩
    cases hp : pickMin (rs.filter (fun m => decide (rkey w m = rkey w s))) with
    | none =>
      rw [pickMin_eq_none] at hp
      have hsf : s ∈ rs.filter (fun m => decide (rkey w m = rkey w s)) := by
        rw [List.mem_filter]; exact ⟨hs, decide_eq_true rfl⟩
      rw [hp] at hsf
      cases hsf
    | some r =>
      refine ⟨r, ?_, topSignals_key hp⟩
      rw [topSignals, List.mem_filterMap]
      exact ⟨rkey w s, hk, hp⟩
  · rw [topSignals]
    refine List.Pairwise.filterMap _ ?_ (List.nodup_dedup _)
    intro k1 k2 hne r1 h1 r2 h2
    have e1 := topSignals_key (Option.mem_def.mp h1)
    have e2 := topSignals_key (Option.mem_def.mp h2)
    rw [e1, e2]
    exact hne
  · intro r hr
    rw [topSignals, List.mem_filterMap] at hr
    obtain ⟨k, hk, hpick⟩ := hr
    have hkey := topSignals_key hpick
    subst hkey
    exact pickMin_split hpick

/-- Witness for C5 at the spec's example with the default window. -/
theorem top_signal_selection_witness :
    (topSignals 100000 exMarkers).Pairwise
      (fun a b => rkey 100000 a ≠ rkey 100000 b) :=
  (top_signal_selection 100000 exMarkers (by decide)).2.2.1

theorem le_foldr_max {l : List Nat} {a : Nat} (h : a ∈ l) : a ≤ l.foldr max 0 := by
  induction l with
  | nil => cases h
  | cons b bs ih =>
    rcases List.mem_cons.mp h with h1 | h1
    · rw [h1]; exact le_max_left _ _
    · exact le_trans (ih h1) (le_max_right _ _)

/-- C6: x-offsets are monotonic and non-overlapping across chromosome
groups in display order: the offset of the chromosome at index i+1 is
the offset at index i plus that chromosome's width, a chromosome with
zero records contributes zero width, and each record's x-coordinate is
its position plus the cumulative width of all preceding chromosomes,
falling inside its own chromosome's offset range. -/
theorem chromosome_layout (order : List String) (rs : List Marker) (i : Nat)
    (h : i < order.length) :
    chromOffset order rs (i+1) = chromOffset order rs i + chromWidth rs order[i] ∧
    chromOffset order rs i ≤ chromOffset order rs (i+1) ∧
    (chromRecords rs order[i] = [] → chromWidth rs order[i] = 0) ∧
    (∀ m ∈ rs, order.indexOf m.chrom = i →
      xcoord order rs m = m.pos + chromOffset order rs i ∧
      chromOffset order rs i ≤ xcoord order rs m ∧
      xcoord order rs m ≤ chromOffset order rs i + chromWidth rs m.chrom) := by
  have hsum : chromOffset order rs (i+1) =
      chromOffset order rs i + chromWidth rs order[i] := by
    rw [chromOffset, chromOffset, List.take_succ, List.getElem?_eq_getElem h]
    simp only [Option.toList_some, List.map_append, List.sum_append,
      List.map_cons, List.map_nil, List.sum_cons, List.sum_nil]
    omega
  refine ⟨hsum, by rw [hsum]; exact Nat.le_add_right _ _, ?_, ?_⟩
  · intro hempty
    rw [chromWidth, hempty]
    rfl
  · intro m hm hidx
    refine ⟨by rw [xcoord, hidx], ?_, ?_⟩
    · rw [xcoord, hidx]
      exact Nat.le_add_left _ _
    · rw [xcoord, hidx, Nat.add_comm]
      apply Nat.add_le_add_left
      exact le_foldr_max (List.mem_map.mpr
        ⟨m, List.mem_filter.mpr ⟨hm, decide_eq_true rfl⟩, rfl⟩)

/-- A display order for the example markers. -/
def exOrder : List String := ["1", "2"]

/-- Witness for C6 at the example display order and markers, index 0. -/
theorem chromosome_layout_witness :
    chromOffset exOrder exMarkers (0+1) =
      chromOffset exOrder exMarkers 0 + chromWidth exMarkers exOrder[0] ∧
    chromOffset exOrder exMarkers 0 ≤ chromOffset exOrder exMarkers (0+1) ∧
    (chromRecords exMarkers exOrder[0] = [] → chromWidth exMarkers exOrder[0] = 0) ∧
    (∀ m ∈ exMarkers, exOrder.indexOf m.chrom = 0 →
      xcoord exOrder exMarkers m = m.pos + chromOffset exOrder exMarkers 0 ∧
      chromOffset exOrder exMarkers 0 ≤ xcoord exOrder exMarkers m ∧
      xcoord exOrder exMarkers m ≤
        chromOffset exOrder exMarkers 0 + chromWidth exMarkers m.chrom) :=
  chromosome_layout exOrder exMarkers 0 (by decide)

/-- Witness for C10 at a concrete table whose label-0 row does not
carry the prefix. -/
theorem warning_iff_label0_witness :
    mainPipeline [(0, rowPlain1)] =
      Except.ok (startsChr (rowPlain1.chrom.getD ""),
                 (dropnaAny [(0, rowPlain1)]).map (fun p => (p.1, stripRow p.2))) ∧
    ∃ out, mainPipeline [(0, rowPlain1), (1, rowChr2)] = Except.ok (false, out) ∧
      out ≠ [(0, rowPlain1), (1, rowChr2)] :=
  warning_iff_label0 [(0, rowPlain1)] rowPlain1 rfl

end Qmplot
